import Mathlib

/-!
Shallow embedding of the density-field simulation and subdivision-geometry
engine of the start-with-a-spreadsheet repository.  JavaScript numbers are
modelled as real numbers; lists model JavaScript arrays.  Definitions follow
the source files src/utils/density.ts, src/utils/interpolation.ts and the
subdivision utilities module.
-/

namespace Spreadsheet

noncomputable section

/-- A 2-D point in grid pixel space, from types/spreadsheet.ts. -/
structure Point where
  x : ℝ
  y : ℝ

/-- An axis-aligned rectangle, from types/spreadsheet.ts. -/
structure CellBounds where
  x : ℝ
  y : ℝ
  width : ℝ
  height : ℝ

/-- Per-base-cell persistent state, from types/spreadsheet.ts. -/
structure CellDensityState where
  density : ℝ
  lastPaintedTime : ℝ

/-- The tunable configuration record, from types/spreadsheet.ts. -/
structure Config where
  baseCellWidth : ℝ
  baseCellHeight : ℝ
  columns : ℝ
  rows : ℝ
  increaseRate : ℝ
  decayRate : ℝ
  influenceRadius : ℝ
  increaseMultiplier : ℝ
  decayMultiplier : ℝ
  velocityInfluence : ℝ
  interpolationDensity : ℝ
  holdDuration : ℝ
  decayAcceleration : ℝ
  maxSubdivisionLevel : ℝ

/-- Direction of one subdivision step, from types/spreadsheet.ts. -/
inductive SubdivisionDirection where
  | horizontal : SubdivisionDirection
  | vertical : SubdivisionDirection
deriving DecidableEq

/-- Euclidean distance between two points (subdivision utilities). -/
def calculateDistance (p1 p2 : Point) : ℝ :=
  Real.sqrt ((p1.x - p2.x) * (p1.x - p2.x) + (p1.y - p2.y) * (p1.y - p2.y))

/-- Center point of a cell (subdivision utilities). -/
def getCellCenter (cell : CellBounds) : Point :=
  ⟨cell.x + cell.width / 2, cell.y + cell.height / 2⟩

/-- Velocity multiplier from density.ts: fixed 1 when the feature is off,
otherwise a cubic curve interpolating from 1 to velocityInfluence. -/
def calculateVelocityMultiplier (velocity velocityInfluence : ℝ) : ℝ :=
  if velocityInfluence ≤ 1 then 1
  else
    let maxVelocity : ℝ := 1000
    let normalizedVelocity := min (velocity / maxVelocity) 1
    let curvedVelocity := normalizedVelocity * normalizedVelocity * normalizedVelocity
    1 + curvedVelocity * (velocityInfluence - 1)

/-- Increase rate for a cell based on distance from the cursor, density.ts:
zero at or beyond the influence radius, otherwise linear falloff boosted by
the velocity multiplier. -/
def calculateIncreaseRate (distance : ℝ) (config : Config) (velocity : ℝ) : ℝ :=
  if config.influenceRadius ≤ distance then 0
  else
    let falloff := 1 - distance / config.influenceRadius
    config.increaseRate * config.increaseMultiplier * falloff *
      calculateVelocityMultiplier velocity config.velocityInfluence

/-- Time-based decay multiplier, density.ts: zero during the hold period,
then an exponential ramp toward 1. -/
def calculateTimeBasedDecayMultiplier (timeSincePainted : ℝ) (config : Config) : ℝ :=
  if timeSincePainted < config.holdDuration then 0
  else
    let timeAfterHold := timeSincePainted - config.holdDuration
    1 - Real.exp (-timeAfterHold * config.decayAcceleration / 2)

/-- One-frame density update for a cell, density.ts: average the increase
rates over all cursor positions, add scaled by deltaTime, subtract the decay
decrement, clamp to the unit interval. -/
def updateCellDensity (currentDensity : ℝ) (cell : CellBounds)
    (cursorPositions : List Point) (deltaTime : ℝ) (config : Config)
    (cursorVelocity : ℝ) (lastPaintedTime currentTime : ℝ) : ℝ :=
  let withIncrease :=
    if 0 < cursorPositions.length then
      let cellCenter := getCellCenter cell
      let totalIncreaseRate :=
        (cursorPositions.map fun cursorPos =>
          calculateIncreaseRate (calculateDistance cursorPos cellCenter) config
            cursorVelocity).sum
      let avgIncreaseRate := totalIncreaseRate / cursorPositions.length
      currentDensity + avgIncreaseRate * deltaTime
    else currentDensity
  let timeSincePainted := (currentTime - lastPaintedTime) / 1000
  let timeBasedMultiplier := calculateTimeBasedDecayMultiplier timeSincePainted config
  let finalDecayRate := config.decayRate * config.decayMultiplier * timeBasedMultiplier
  max 0 (min 1 (withIncrease - finalDecayRate * deltaTime))

/-- Map a density value to a subdivision level, density.ts: floor of the
product, clamped to the range from 0 to maxLevel. -/
def densityToSubdivisionLevel (density maxLevel : ℝ) : ℝ :=
  max 0 (min maxLevel ((⌊density * maxLevel⌋ : ℤ) : ℝ))

/-- Choose the subdivision direction from the cell dimensions (subdivision
utilities): split vertically when the width dominates. -/
def getSubdivisionDirection (width height : ℝ) : SubdivisionDirection :=
  if width > height then SubdivisionDirection.vertical else SubdivisionDirection.horizontal

/-- Split a cell once into two children along the given direction
(subdivision utilities). -/
def subdivideCellOnce (cell : CellBounds) (direction : SubdivisionDirection) :
    CellBounds × CellBounds :=
  if direction = SubdivisionDirection.vertical then
    let halfWidth := cell.width / 2
    (⟨cell.x, cell.y, halfWidth, cell.height⟩,
     ⟨cell.x + halfWidth, cell.y, halfWidth, cell.height⟩)
  else
    let halfHeight := cell.height / 2
    (⟨cell.x, cell.y, cell.width, halfHeight⟩,
     ⟨cell.x, cell.y + halfHeight, cell.width, halfHeight⟩)

/-- Recursively subdivide a cell to a target level (subdivision utilities). -/
def subdivideCell (cell : CellBounds) (targetLevel currentLevel : ℕ) :
    List CellBounds :=
  if targetLevel ≤ currentLevel then [cell]
  else
    let direction := getSubdivisionDirection cell.width cell.height
    let children := subdivideCellOnce cell direction
    let nextLevel := currentLevel + 1
    subdivideCell children.1 targetLevel nextLevel ++
      subdivideCell children.2 targetLevel nextLevel
termination_by targetLevel - currentLevel
decreasing_by all_goals omega

/-- A dividing line recorded by one subdivision step (subdivision
utilities). -/
structure SubdivisionLine where
  x1 : ℝ
  y1 : ℝ
  x2 : ℝ
  y2 : ℝ
  level : ℕ

/-- All dividing lines introduced while subdividing a cell to a target level
(subdivision utilities): each recursion step emits the cut line of its own
split, tagged with the level that split creates, then recurses on both
children. -/
def getSubdivisionLines (cell : CellBounds) (targetLevel currentLevel : ℕ) :
    List SubdivisionLine :=
  if targetLevel ≤ currentLevel then []
  else
    let direction := getSubdivisionDirection cell.width cell.height
    let nextLevel := currentLevel + 1
    let line : SubdivisionLine :=
      if direction = SubdivisionDirection.vertical then
        ⟨cell.x + cell.width / 2, cell.y,
         cell.x + cell.width / 2, cell.y + cell.height, nextLevel⟩
      else
        ⟨cell.x, cell.y + cell.height / 2,
         cell.x + cell.width, cell.y + cell.height / 2, nextLevel⟩
    let children := subdivideCellOnce cell direction
    line :: (getSubdivisionLines children.1 targetLevel nextLevel ++
      getSubdivisionLines children.2 targetLevel nextLevel)
termination_by targetLevel - currentLevel
decreasing_by all_goals omega

/-- Interpolate evenly spaced points along the segment between two positions
(interpolation.ts): only the end point when the positions are closer than the
step size, otherwise ceil(distance / stepSize) steps from t = 0 to t = 1. -/
def interpolatePoints (p1 p2 : Point) (stepSize : ℝ) : List Point :=
  let dx := p2.x - p1.x
  let dy := p2.y - p1.y
  let distance := Real.sqrt (dx * dx + dy * dy)
  if distance < stepSize then [p2]
  else
    let numSteps := (⌈distance / stepSize⌉ : ℤ).toNat
    (List.range (numSteps + 1)).map fun (i : ℕ) =>
      ⟨p1.x + dx * ((i : ℝ) / (numSteps : ℝ)), p1.y + dy * ((i : ℝ) / (numSteps : ℝ))⟩

/-- The default configuration from density.ts. -/
def createDefaultConfig : Config :=
  { baseCellWidth := 80
    baseCellHeight := 24
    columns := 26
    rows := 30
    increaseRate := 0.4
    decayRate := 0.25
    influenceRadius := 200
    increaseMultiplier := 0.8
    decayMultiplier := 1.0
    velocityInfluence := 8.0
    interpolationDensity := 5.0
    holdDuration := 1.5
    decayAcceleration := 5.0
    maxSubdivisionLevel := 6 }

/-- The closed rectangle of points covered by a cell. -/
def cellSet (c : CellBounds) : Set (ℝ × ℝ) :=
  {p | c.x ≤ p.1 ∧ p.1 ≤ c.x + c.width ∧ c.y ≤ p.2 ∧ p.2 ≤ c.y + c.height}

/-- The open interior of the rectangle covered by a cell. -/
def cellInterior (c : CellBounds) : Set (ℝ × ℝ) :=
  {p | c.x < p.1 ∧ p.1 < c.x + c.width ∧ c.y < p.2 ∧ p.2 < c.y + c.height}

/-- Whether a cell received any non-zero increase contribution from the
contact points of one frame. -/
def receivedContribution (cell : CellBounds) (cursorPositions : List Point)
    (config : Config) (cursorVelocity : ℝ) : Prop :=
  ∃ p ∈ cursorPositions,
    calculateIncreaseRate (calculateDistance p (getCellCenter cell)) config
      cursorVelocity ≠ 0

open Classical in
/-- Modelled from the spec: the per-frame advance of one CellDensityState.
The density-painting frame loop that owns the CellDensityState map is not
under src (only the CellDensityState type and updateCellDensity are), so this
follows the spec, section 4.4 and section 4.5: density is advanced by
updateCellDensity, and lastPaintedTime is refreshed to the current frame
timestamp whenever the cell received any non-zero increase contribution this
frame, otherwise kept. -/
def advanceCellState (state : CellDensityState) (cell : CellBounds)
    (cursorPositions : List Point) (deltaTime : ℝ) (config : Config)
    (cursorVelocity : ℝ) (currentTime : ℝ) : CellDensityState :=
  { density := updateCellDensity state.density cell cursorPositions deltaTime
      config cursorVelocity state.lastPaintedTime currentTime
    lastPaintedTime :=
      if receivedContribution cell cursorPositions config cursorVelocity then
        currentTime
      else state.lastPaintedTime }

/-! Helper lemmas -/

/-- The velocity multiplier is at least 1 for a non-negative velocity. -/
lemma one_le_calculateVelocityMultiplier (velocity velocityInfluence : ℝ)
    (hv : 0 ≤ velocity) : 1 ≤ calculateVelocityMultiplier velocity velocityInfluence := by
  simp only [calculateVelocityMultiplier]
  split_ifs with h
  · exact le_refl 1
  · push_neg at h
    have hn : 0 ≤ min (velocity / 1000) 1 := le_min (by positivity) zero_le_one
    nlinarith [mul_nonneg (mul_nonneg hn hn) hn]

/-- Unfolding subdivideCell at or past the target level. -/
lemma subdivideCell_base (cell : CellBounds) (t c : ℕ) (h : t ≤ c) :
    subdivideCell cell t c = [cell] := by
  rw [subdivideCell, if_pos h]

/-- Unfolding subdivideCell below the target level. -/
lemma subdivideCell_step (cell : CellBounds) (t c : ℕ) (h : c < t) :
    subdivideCell cell t c =
      subdivideCell
        (subdivideCellOnce cell
          (getSubdivisionDirection cell.width cell.height)).1 t (c + 1) ++
      subdivideCell
        (subdivideCellOnce cell
          (getSubdivisionDirection cell.width cell.height)).2 t (c + 1) := by
  rw [subdivideCell, if_neg (by omega)]

/-- subdivideCell always produces two to the power of the remaining levels
many cells, for every cell, degenerate or not. -/
lemma subdivideCell_length (n : ℕ) : ∀ (cell : CellBounds) (t c : ℕ), t - c = n →
    (subdivideCell cell t c).length = 2 ^ n := by
  induction n with
  | zero =>
    intro cell t c h
    rw [subdivideCell_base cell t c (by omega)]
    rfl
  | succ n ih =>
    intro cell t c h
    rw [subdivideCell_step cell t c (by omega), List.length_append,
      ih _ t (c + 1) (by omega), ih _ t (c + 1) (by omega)]
    ring

/-- The open interior of a cell is contained in its closed rectangle. -/
lemma cellInterior_subset_cellSet (c : CellBounds) : cellInterior c ⊆ cellSet c :=
  fun _ hp => ⟨hp.1.le, hp.2.1.le, hp.2.2.1.le, hp.2.2.2.le⟩

/-- Evaluation of one vertical subdivision step. -/
lemma subdivideCellOnce_vertical (cell : CellBounds) :
    subdivideCellOnce cell SubdivisionDirection.vertical =
      (⟨cell.x, cell.y, cell.width / 2, cell.height⟩,
       ⟨cell.x + cell.width / 2, cell.y, cell.width / 2, cell.height⟩) := by
  simp [subdivideCellOnce]

/-- Evaluation of one horizontal subdivision step. -/
lemma subdivideCellOnce_horizontal (cell : CellBounds) :
    subdivideCellOnce cell SubdivisionDirection.horizontal =
      (⟨cell.x, cell.y, cell.width, cell.height / 2⟩,
       ⟨cell.x, cell.y + cell.height / 2, cell.width, cell.height / 2⟩) := by
  simp [subdivideCellOnce]

/-- One subdivision step of a cell with positive dimensions produces two
children with positive dimensions. -/
lemma subdivideCellOnce_dims (cell : CellBounds) (dir : SubdivisionDirection)
    (hw : 0 < cell.width) (hh : 0 < cell.height) :
    0 < (subdivideCellOnce cell dir).1.width ∧
    0 < (subdivideCellOnce cell dir).1.height ∧
    0 < (subdivideCellOnce cell dir).2.width ∧
    0 < (subdivideCellOnce cell dir).2.height := by
  cases dir
  · rw [subdivideCellOnce_horizontal]
    exact ⟨by linarith, by linarith, by linarith, by linarith⟩
  · rw [subdivideCellOnce_vertical]
    exact ⟨by linarith, by linarith, by linarith, by linarith⟩

/-- The closed rectangles of the two children of one subdivision step cover
exactly the closed rectangle of the parent. -/
lemma subdivideCellOnce_union (cell : CellBounds) (dir : SubdivisionDirection)
    (hw : 0 ≤ cell.width) (hh : 0 ≤ cell.height) :
    cellSet (subdivideCellOnce cell dir).1 ∪ cellSet (subdivideCellOnce cell dir).2 =
      cellSet cell := by
  cases dir
  · rw [subdivideCellOnce_horizontal]
    ext ⟨px, py⟩
    simp only [cellSet, Set.mem_union, Set.mem_setOf_eq]
    constructor
    · rintro (⟨h1, h2, h3, h4⟩ | ⟨h1, h2, h3, h4⟩) <;>
        exact ⟨by linarith, by linarith, by linarith, by linarith⟩
    · rintro ⟨h1, h2, h3, h4⟩
      rcases le_total py (cell.y + cell.height / 2) with h | h
      · exact Or.inl ⟨by linarith, by linarith, by linarith, by linarith⟩
      · exact Or.inr ⟨by linarith, by linarith, by linarith, by linarith⟩
  · rw [subdivideCellOnce_vertical]
    ext ⟨px, py⟩
    simp only [cellSet, Set.mem_union, Set.mem_setOf_eq]
    constructor
    · rintro (⟨h1, h2, h3, h4⟩ | ⟨h1, h2, h3, h4⟩) <;>
        exact ⟨by linarith, by linarith, by linarith, by linarith⟩
    · rintro ⟨h1, h2, h3, h4⟩
      rcases le_total px (cell.x + cell.width / 2) with h | h
      · exact Or.inl ⟨by linarith, by linarith, by linarith, by linarith⟩
      · exact Or.inr ⟨by linarith, by linarith, by linarith, by linarith⟩

/-- Interiors of cells lying inside the two different children of one
subdivision step are disjoint. -/
lemma subdivideCellOnce_cross_disjoint (cell : CellBounds)
    (dir : SubdivisionDirection) (a b : CellBounds)
    (ha : cellSet a ⊆ cellSet (subdivideCellOnce cell dir).1)
    (hb : cellSet b ⊆ cellSet (subdivideCellOnce cell dir).2) :
    cellInterior a ∩ cellInterior b = ∅ := by
  rw [Set.eq_empty_iff_forall_not_mem]
  rintro ⟨px, py⟩ ⟨hpa, hpb⟩
  obtain ⟨hb1, hb2, hb3, hb4⟩ := hpb
  have hcorner : ((b.x, b.y) : ℝ × ℝ) ∈ cellSet b :=
    ⟨le_refl b.x, by simp only; linarith, le_refl b.y, by simp only; linarith⟩
  have hbc := hb hcorner
  have hac := ha (cellInterior_subset_cellSet a ⟨hpa.1, hpa.2.1, hpa.2.2.1, hpa.2.2.2⟩)
  cases dir
  · rw [subdivideCellOnce_horizontal] at hbc hac
    simp only [cellSet, Set.mem_setOf_eq] at hbc hac
    linarith [hbc.2.2.1, hac.2.2.2]
  · rw [subdivideCellOnce_vertical] at hbc hac
    simp only [cellSet, Set.mem_setOf_eq] at hbc hac
    linarith [hbc.1, hac.2.1]

/-- Union of cell rectangles over an appended list. -/
lemma biUnion_cellSet_append (l1 l2 : List CellBounds) :
    (⋃ r ∈ l1 ++ l2, cellSet r) =
      (⋃ r ∈ l1, cellSet r) ∪ (⋃ r ∈ l2, cellSet r) := by
  ext p
  simp only [Set.mem_union, Set.mem_iUnion, List.mem_append]
  constructor
  · rintro ⟨r, hr | hr, hp⟩
    · exact Or.inl ⟨r, hr, hp⟩
    · exact Or.inr ⟨r, hr, hp⟩
  · rintro (⟨r, hr, hp⟩ | ⟨r, hr, hp⟩)
    · exact ⟨r, Or.inl hr, hp⟩
    · exact ⟨r, Or.inr hr, hp⟩

/-- Core induction for C5: for a cell with positive dimensions the leaves of
subdivideCell cover the cell exactly and have pairwise disjoint interiors. -/
lemma subdivideCell_partition (n : ℕ) : ∀ (cell : CellBounds) (t c : ℕ),
    t - c = n → 0 < cell.width → 0 < cell.height →
    (⋃ r ∈ subdivideCell cell t c, cellSet r) = cellSet cell ∧
    (subdivideCell cell t c).Pairwise
      (fun r1 r2 => cellInterior r1 ∩ cellInterior r2 = ∅) := by
  induction n with
  | zero =>
    intro cell t c h hw hh
    rw [subdivideCell_base cell t c (by omega)]
    constructor
    · simp
    · simp
  | succ n ih =>
    intro cell t c h hw hh
    have hdims := subdivideCellOnce_dims cell
      (getSubdivisionDirection cell.width cell.height) hw hh
    have h1 := ih (subdivideCellOnce cell
      (getSubdivisionDirection cell.width cell.height)).1 t (c + 1) (by omega)
      hdims.1 hdims.2.1
    have h2 := ih (subdivideCellOnce cell
      (getSubdivisionDirection cell.width cell.height)).2 t (c + 1) (by omega)
      hdims.2.2.1 hdims.2.2.2
    rw [subdivideCell_step cell t c (by omega)]
    constructor
    · rw [biUnion_cellSet_append, h1.1, h2.1,
        subdivideCellOnce_union cell _ hw.le hh.le]
    · rw [List.pairwise_append]
      refine ⟨h1.2, h2.2, fun a hav b hbv => ?_⟩
      apply subdivideCellOnce_cross_disjoint cell
        (getSubdivisionDirection cell.width cell.height) a b
      · rw [← h1.1]
        intro p hp
        simp only [Set.mem_iUnion]
        exact ⟨a, hav, hp⟩
      · rw [← h2.1]
        intro p hp
        simp only [Set.mem_iUnion]
        exact ⟨b, hbv, hp⟩

/-- Unfolding getSubdivisionLines at or past the target level. -/
lemma getSubdivisionLines_base (cell : CellBounds) (t c : ℕ) (h : t ≤ c) :
    getSubdivisionLines cell t c = [] := by
  rw [getSubdivisionLines, if_pos h]

/-- Unfolding getSubdivisionLines below the target level. -/
lemma getSubdivisionLines_step (cell : CellBounds) (t c : ℕ) (h : c < t) :
    getSubdivisionLines cell t c =
      (if getSubdivisionDirection cell.width cell.height =
          SubdivisionDirection.vertical then
        (⟨cell.x + cell.width / 2, cell.y,
          cell.x + cell.width / 2, cell.y + cell.height, c + 1⟩ : SubdivisionLine)
      else
        ⟨cell.x, cell.y + cell.height / 2,
         cell.x + cell.width, cell.y + cell.height / 2, c + 1⟩) ::
      (getSubdivisionLines
        (subdivideCellOnce cell
          (getSubdivisionDirection cell.width cell.height)).1 t (c + 1) ++
       getSubdivisionLines
        (subdivideCellOnce cell
          (getSubdivisionDirection cell.width cell.height)).2 t (c + 1)) := by
  rw [getSubdivisionLines, if_neg (by omega)]

/-- getSubdivisionLines emits one line per split performed. -/
lemma getSubdivisionLines_length (n : ℕ) : ∀ (cell : CellBounds) (t c : ℕ),
    t - c = n → (getSubdivisionLines cell t c).length = 2 ^ n - 1 := by
  induction n with
  | zero =>
    intro cell t c h
    rw [getSubdivisionLines_base cell t c (by omega)]
    rfl
  | succ n ih =>
    intro cell t c h
    rw [getSubdivisionLines_step cell t c (by omega), List.length_cons,
      List.length_append, ih _ t (c + 1) (by omega), ih _ t (c + 1) (by omega)]
    have h1 : 1 ≤ 2 ^ n := Nat.one_le_two_pow
    have h2 : 2 ^ (n + 1) = 2 * 2 ^ n := by ring
    omega

/-- Every line emitted below level c carries a level between c + 1 and the
target level. -/
lemma getSubdivisionLines_level_bounds (n : ℕ) : ∀ (cell : CellBounds) (t c : ℕ),
    t - c = n → ∀ l ∈ getSubdivisionLines cell t c,
      c + 1 ≤ l.level ∧ l.level ≤ t := by
  induction n with
  | zero =>
    intro cell t c h l hl
    rw [getSubdivisionLines_base cell t c (by omega)] at hl
    exact absurd hl (List.not_mem_nil l)
  | succ n ih =>
    intro cell t c h l hl
    rw [getSubdivisionLines_step cell t c (by omega), List.mem_cons] at hl
    rcases hl with rfl | hl
    · constructor
      · split_ifs <;> simp
      · split_ifs <;> simp <;> omega
    · rw [List.mem_append] at hl
      rcases hl with hl | hl
      · have := ih _ t (c + 1) (by omega) l hl
        omega
      · have := ih _ t (c + 1) (by omega) l hl
        omega

/-- Count of lines carrying each level: one line at the first level below c,
doubling at each deeper level, none outside the emitted range. -/
lemma getSubdivisionLines_countP (n : ℕ) : ∀ (cell : CellBounds) (t c k : ℕ),
    t - c = n →
    (getSubdivisionLines cell t c).countP (fun l => l.level == c + k) =
      if 1 ≤ k ∧ k ≤ n then 2 ^ (k - 1) else 0 := by
  induction n with
  | zero =>
    intro cell t c k h
    rw [getSubdivisionLines_base cell t c (by omega), List.countP_nil,
      if_neg (by omega)]
  | succ n ih =>
    intro cell t c k h
    rw [getSubdivisionLines_step cell t c (by omega), List.countP_cons,
      List.countP_append]
    have hhead : (if getSubdivisionDirection cell.width cell.height =
          SubdivisionDirection.vertical then
        (⟨cell.x + cell.width / 2, cell.y,
          cell.x + cell.width / 2, cell.y + cell.height, c + 1⟩ : SubdivisionLine)
      else
        ⟨cell.x, cell.y + cell.height / 2,
         cell.x + cell.width, cell.y + cell.height / 2, c + 1⟩).level = c + 1 := by
      split_ifs <;> rfl
    rcases Nat.eq_zero_or_pos k with hk0 | hkpos
    · subst hk0
      have hz1 : (getSubdivisionLines
          (subdivideCellOnce cell
            (getSubdivisionDirection cell.width cell.height)).1 t (c + 1)).countP
            (fun l => l.level == c + 0) = 0 := by
        rw [List.countP_eq_zero]
        intro l hl
        have := getSubdivisionLines_level_bounds n _ t (c + 1) (by omega) l hl
        simp only [beq_iff_eq]
        omega
      have hz2 : (getSubdivisionLines
          (subdivideCellOnce cell
            (getSubdivisionDirection cell.width cell.height)).2 t (c + 1)).countP
            (fun l => l.level == c + 0) = 0 := by
        rw [List.countP_eq_zero]
        intro l hl
        have := getSubdivisionLines_level_bounds n _ t (c + 1) (by omega) l hl
        simp only [beq_iff_eq]
        omega
      rw [hz1, hz2]
      simp only [hhead, beq_iff_eq]
      rw [if_neg (by omega), if_neg (by omega)]
    · have hck : c + k = (c + 1) + (k - 1) := by omega
      have hc1 := ih (subdivideCellOnce cell
        (getSubdivisionDirection cell.width cell.height)).1 t (c + 1) (k - 1)
        (by omega)
      have hc2 := ih (subdivideCellOnce cell
        (getSubdivisionDirection cell.width cell.height)).2 t (c + 1) (k - 1)
        (by omega)
      rw [hck, hc1, hc2]
      simp only [hhead, beq_iff_eq]
      by_cases hk1 : k = 1
      · subst hk1
        split_ifs <;> first | (exfalso; omega) | norm_num
      · have hm1 : k - 1 - 1 = k - 2 := by omega
        have hpow : 2 ^ (k - 2) + 2 ^ (k - 2) = 2 ^ (k - 1) := by
          have hs : k - 1 = k - 2 + 1 := by omega
          rw [hs, pow_succ]
          ring
        split_ifs <;>
          first
          | (exfalso; omega)
          | rfl
          | simp only [hm1, Nat.add_zero, hpow]

/-- The distance computed inside interpolatePoints is calculateDistance. -/
lemma interpolate_distance (p1 p2 : Point) :
    Real.sqrt ((p2.x - p1.x) * (p2.x - p1.x) + (p2.y - p1.y) * (p2.y - p1.y)) =
      calculateDistance p1 p2 := by
  rw [calculateDistance]
  exact congrArg Real.sqrt (by ring)

/-- interpolatePoints for nearby endpoints returns only the end point. -/
lemma interpolatePoints_of_lt (p1 p2 : Point) (s : ℝ)
    (h : calculateDistance p1 p2 < s) : interpolatePoints p1 p2 s = [p2] := by
  simp only [interpolatePoints, interpolate_distance]
  rw [if_pos h]

/-- interpolatePoints for distant endpoints is the evenly spaced map over the
step indices. -/
lemma interpolatePoints_of_le (p1 p2 : Point) (s : ℝ)
    (h : s ≤ calculateDistance p1 p2) :
    interpolatePoints p1 p2 s =
      (List.range ((⌈calculateDistance p1 p2 / s⌉ : ℤ).toNat + 1)).map fun i =>
        ⟨p1.x + (p2.x - p1.x) *
            ((i : ℝ) / (((⌈calculateDistance p1 p2 / s⌉ : ℤ).toNat : ℕ) : ℝ)),
         p1.y + (p2.y - p1.y) *
            ((i : ℝ) / (((⌈calculateDistance p1 p2 / s⌉ : ℤ).toNat : ℕ) : ℝ))⟩ := by
  simp only [interpolatePoints, interpolate_distance]
  rw [if_neg (not_lt.mpr h)]

/-- The number of steps is at least one for distant endpoints. -/
lemma interpolate_numSteps_pos (p1 p2 : Point) (s : ℝ) (hs : 0 < s)
    (h : s ≤ calculateDistance p1 p2) :
    1 ≤ (⌈calculateDistance p1 p2 / s⌉ : ℤ).toNat := by
  have hds : 1 ≤ calculateDistance p1 p2 / s := (one_le_div hs).mpr h
  have hceil : (1 : ℤ) ≤ ⌈calculateDistance p1 p2 / s⌉ := by
    calc (1 : ℤ) = ⌈(1 : ℝ)⌉ := by simp
    _ ≤ ⌈calculateDistance p1 p2 / s⌉ := Int.ceil_le_ceil hds
  omega

/-! Claim theorems -/

/-- C4: with holdDuration non-negative and decayAcceleration positive, the
time-based decay multiplier is 0 before the hold window ends, equals the
exponential ramp afterwards, is strictly increasing past the hold window, and
is always strictly below 1. -/
theorem claim_C4_decay_hold (config : Config)
    (hh : 0 ≤ config.holdDuration) (ha : 0 < config.decayAcceleration) :
    (∀ t, t < config.holdDuration → calculateTimeBasedDecayMultiplier t config = 0) ∧
    (∀ t, config.holdDuration ≤ t →
      calculateTimeBasedDecayMultiplier t config =
        1 - Real.exp (-(t - config.holdDuration) * config.decayAcceleration / 2)) ∧
    (∀ t1 t2, config.holdDuration < t1 → t1 < t2 →
      calculateTimeBasedDecayMultiplier t1 config <
        calculateTimeBasedDecayMultiplier t2 config) ∧
    (∀ t, calculateTimeBasedDecayMultiplier t config < 1) := by
  refine ⟨fun t ht => ?_, fun t ht => ?_, fun t1 t2 h1 h2 => ?_, fun t => ?_⟩
  · simp only [calculateTimeBasedDecayMultiplier, if_pos ht]
  · simp only [calculateTimeBasedDecayMultiplier, if_neg (not_lt.mpr ht)]
  · have h1' : ¬ t1 < config.holdDuration := not_lt.mpr h1.le
    have h2' : ¬ t2 < config.holdDuration := not_lt.mpr (h1.trans h2).le
    simp only [calculateTimeBasedDecayMultiplier, if_neg h1', if_neg h2']
    have hexp : Real.exp (-(t2 - config.holdDuration) * config.decayAcceleration / 2) <
        Real.exp (-(t1 - config.holdDuration) * config.decayAcceleration / 2) := by
      apply Real.exp_lt_exp.mpr
      nlinarith
    linarith
  · simp only [calculateTimeBasedDecayMultiplier]
    split_ifs with h
    · norm_num
    · have := Real.exp_pos (-(t - config.holdDuration) * config.decayAcceleration / 2)
      linarith

/-- C4 witness: the theorem applied to the default configuration. -/
theorem claim_C4_decay_hold_witness :
    0 ≤ createDefaultConfig.holdDuration ∧ 0 < createDefaultConfig.decayAcceleration ∧
    ((∀ t, t < createDefaultConfig.holdDuration →
        calculateTimeBasedDecayMultiplier t createDefaultConfig = 0) ∧
      (∀ t, createDefaultConfig.holdDuration ≤ t →
        calculateTimeBasedDecayMultiplier t createDefaultConfig =
          1 - Real.exp (-(t - createDefaultConfig.holdDuration) *
            createDefaultConfig.decayAcceleration / 2)) ∧
      (∀ t1 t2, createDefaultConfig.holdDuration < t1 → t1 < t2 →
        calculateTimeBasedDecayMultiplier t1 createDefaultConfig <
          calculateTimeBasedDecayMultiplier t2 createDefaultConfig) ∧
      (∀ t, calculateTimeBasedDecayMultiplier t createDefaultConfig < 1)) :=
  ⟨by norm_num [createDefaultConfig], by norm_num [createDefaultConfig],
    claim_C4_decay_hold createDefaultConfig (by norm_num [createDefaultConfig])
      (by norm_num [createDefaultConfig])⟩

/-- C3: with non-negative rate, multiplier, radius and velocity, the increase
rate is non-increasing in distance, vanishes at and beyond the influence
radius, and with a zero influence radius vanishes for every non-negative
distance (the radius guard fires before any division). -/
theorem claim_C3_falloff_monotone (config : Config) (v : ℝ)
    (hR : 0 ≤ config.increaseRate) (hM : 0 ≤ config.increaseMultiplier)
    (hr : 0 ≤ config.influenceRadius) (hv : 0 ≤ v) :
    (∀ d1 d2 : ℝ, 0 ≤ d1 → d1 < d2 →
      calculateIncreaseRate d2 config v ≤ calculateIncreaseRate d1 config v) ∧
    (∀ d : ℝ, config.influenceRadius ≤ d → calculateIncreaseRate d config v = 0) ∧
    (config.influenceRadius = 0 → ∀ d : ℝ, 0 ≤ d →
      calculateIncreaseRate d config v = 0) := by
  have hvm : 1 ≤ calculateVelocityMultiplier v config.velocityInfluence :=
    one_le_calculateVelocityMultiplier v config.velocityInfluence hv
  have hvm0 : 0 ≤ calculateVelocityMultiplier v config.velocityInfluence :=
    zero_le_one.trans hvm
  refine ⟨fun d1 d2 hd1 hlt => ?_, fun d hd => ?_, fun h0 d hd => ?_⟩
  · simp only [calculateIncreaseRate]
    split_ifs with h2 h1 h1
    · exact le_refl 0
    · have hd1r : d1 < config.influenceRadius := not_le.mp h1
      have hrpos : 0 < config.influenceRadius := lt_of_le_of_lt hd1 hd1r
      have hfall : 0 ≤ 1 - d1 / config.influenceRadius := by
        have : d1 / config.influenceRadius < 1 := (div_lt_one hrpos).mpr hd1r
        linarith
      exact mul_nonneg (mul_nonneg (mul_nonneg hR hM) hfall) hvm0
    · exact absurd (h1.trans hlt.le) h2
    · have hd1r : d1 < config.influenceRadius := not_le.mp h1
      have hrpos : 0 < config.influenceRadius := lt_of_le_of_lt hd1 hd1r
      have hdiv : d1 / config.influenceRadius ≤ d2 / config.influenceRadius :=
        (div_le_div_right hrpos).mpr hlt.le
      apply mul_le_mul_of_nonneg_right _ hvm0
      apply mul_le_mul_of_nonneg_left _ (mul_nonneg hR hM)
      linarith
  · simp only [calculateIncreaseRate, if_pos hd]
  · simp only [calculateIncreaseRate, if_pos (h0.le.trans hd)]

/-- C3 witness: the theorem applied to the default configuration and zero
velocity. -/
theorem claim_C3_falloff_monotone_witness :
    0 ≤ createDefaultConfig.increaseRate ∧ 0 ≤ createDefaultConfig.increaseMultiplier ∧
    0 ≤ createDefaultConfig.influenceRadius ∧ 0 ≤ (0 : ℝ) ∧
    ((∀ d1 d2 : ℝ, 0 ≤ d1 → d1 < d2 →
        calculateIncreaseRate d2 createDefaultConfig 0 ≤
          calculateIncreaseRate d1 createDefaultConfig 0) ∧
      (∀ d : ℝ, createDefaultConfig.influenceRadius ≤ d →
        calculateIncreaseRate d createDefaultConfig 0 = 0) ∧
      (createDefaultConfig.influenceRadius = 0 → ∀ d : ℝ, 0 ≤ d →
        calculateIncreaseRate d createDefaultConfig 0 = 0)) :=
  ⟨by norm_num [createDefaultConfig], by norm_num [createDefaultConfig],
    by norm_num [createDefaultConfig], le_refl 0,
    claim_C3_falloff_monotone createDefaultConfig 0 (by norm_num [createDefaultConfig])
      (by norm_num [createDefaultConfig]) (by norm_num [createDefaultConfig]) (le_refl 0)⟩

/-- C1: updateCellDensity always returns a value in the unit interval, and
densityToSubdivisionLevel returns an integer between 0 and maxLevel whenever
maxLevel is a non-negative integer. -/
theorem claim_C1_clamping :
    (∀ (currentDensity : ℝ) (cell : CellBounds) (cursorPositions : List Point)
        (deltaTime : ℝ) (config : Config)
        (cursorVelocity lastPaintedTime currentTime : ℝ),
      0 ≤ updateCellDensity currentDensity cell cursorPositions deltaTime config
          cursorVelocity lastPaintedTime currentTime ∧
      updateCellDensity currentDensity cell cursorPositions deltaTime config
          cursorVelocity lastPaintedTime currentTime ≤ 1) ∧
    (∀ (density : ℝ) (m : ℤ), 0 ≤ m →
      ∃ k : ℤ, densityToSubdivisionLevel density (m : ℝ) = (k : ℝ) ∧
        0 ≤ k ∧ k ≤ m) := by
  constructor
  · intro currentDensity cell cursorPositions deltaTime config cursorVelocity
      lastPaintedTime currentTime
    simp only [updateCellDensity]
    constructor
    · exact le_max_left 0 _
    · exact max_le zero_le_one (min_le_left 1 _)
  · intro density m hm
    refine ⟨max 0 (min m ⌊density * (m : ℝ)⌋), ?_, le_max_left 0 _, ?_⟩
    · simp only [densityToSubdivisionLevel]
      push_cast
      rfl
    · exact max_le hm (min_le_left m _)

/-- C1 witness: the theorem applied at concrete arguments, with maxLevel 6. -/
theorem claim_C1_clamping_witness :
    (0 ≤ updateCellDensity 0 ⟨0, 0, 80, 24⟩ [] 1 createDefaultConfig 0 0 0 ∧
      updateCellDensity 0 ⟨0, 0, 80, 24⟩ [] 1 createDefaultConfig 0 0 0 ≤ 1) ∧
    (0 ≤ (6 : ℤ) ∧ ∃ k : ℤ, densityToSubdivisionLevel 0.5 ((6 : ℤ) : ℝ) = (k : ℝ) ∧
      0 ≤ k ∧ k ≤ 6) :=
  ⟨claim_C1_clamping.1 0 ⟨0, 0, 80, 24⟩ [] 1 createDefaultConfig 0 0 0,
    by decide, claim_C1_clamping.2 0.5 6 (by decide)⟩

/-- C2: updateCellDensity computes exactly the clamped sum of the old
density, the per-point increase rates averaged (not summed) and scaled by
deltaTime, minus the decay decrement, which is subtracted in the same update
whether or not any increase is received; with no cursor positions the
increase term is absent and the decay decrement is still subtracted. -/
theorem claim_C2_update_formula (currentDensity : ℝ) (cell : CellBounds)
    (cursorPositions : List Point) (deltaTime : ℝ) (config : Config)
    (cursorVelocity lastPaintedTime currentTime : ℝ) :
    (cursorPositions ≠ [] →
      updateCellDensity currentDensity cell cursorPositions deltaTime config
          cursorVelocity lastPaintedTime currentTime =
        max 0 (min 1 (currentDensity +
          (1 / (cursorPositions.length : ℝ)) *
            ((cursorPositions.map fun p =>
              calculateIncreaseRate (calculateDistance p (getCellCenter cell))
                config cursorVelocity).sum) * deltaTime -
          config.decayRate * config.decayMultiplier *
            calculateTimeBasedDecayMultiplier
              ((currentTime - lastPaintedTime) / 1000) config * deltaTime))) ∧
    (cursorPositions = [] →
      updateCellDensity currentDensity cell cursorPositions deltaTime config
          cursorVelocity lastPaintedTime currentTime =
        max 0 (min 1 (currentDensity -
          config.decayRate * config.decayMultiplier *
            calculateTimeBasedDecayMultiplier
              ((currentTime - lastPaintedTime) / 1000) config * deltaTime))) := by
  constructor
  · intro h
    have hlen : 0 < cursorPositions.length := List.length_pos.mpr h
    simp only [updateCellDensity, if_pos hlen]
    congr 2
    ring
  · intro h
    subst h
    simp only [updateCellDensity, List.length_nil, lt_irrefl, if_false]

/-- C2 witness: the theorem applied to a singleton cursor-position list. -/
theorem claim_C2_update_formula_witness :
    ([(⟨0, 0⟩ : Point)] ≠ ([] : List Point)) ∧
    updateCellDensity 0 ⟨0, 0, 80, 24⟩ [⟨0, 0⟩] 1 createDefaultConfig 0 0 0 =
      max 0 (min 1 ((0 : ℝ) +
        (1 / (([(⟨0, 0⟩ : Point)].length : ℕ) : ℝ)) *
          (([(⟨0, 0⟩ : Point)].map fun p =>
            calculateIncreaseRate
              (calculateDistance p (getCellCenter ⟨0, 0, 80, 24⟩))
              createDefaultConfig 0).sum) * 1 -
        createDefaultConfig.decayRate * createDefaultConfig.decayMultiplier *
          calculateTimeBasedDecayMultiplier (((0 : ℝ) - 0) / 1000)
            createDefaultConfig * 1)) :=
  ⟨by simp,
    (claim_C2_update_formula 0 ⟨0, 0, 80, 24⟩ [⟨0, 0⟩] 1 createDefaultConfig 0 0 0).1
      (by simp)⟩

/-- C7: after the per-frame update, provided the stored timestamp is not
already the current one, lastPaintedTime equals the current frame timestamp
exactly when the cell received a non-zero increase contribution this frame,
and a cell with no such contribution keeps its previous lastPaintedTime. -/
theorem claim_C7_last_painted_refresh (state : CellDensityState)
    (cell : CellBounds) (cursorPositions : List Point) (deltaTime : ℝ)
    (config : Config) (cursorVelocity currentTime : ℝ)
    (hne : state.lastPaintedTime ≠ currentTime) :
    ((advanceCellState state cell cursorPositions deltaTime config
        cursorVelocity currentTime).lastPaintedTime = currentTime ↔
      receivedContribution cell cursorPositions config cursorVelocity) ∧
    (¬ receivedContribution cell cursorPositions config cursorVelocity →
      (advanceCellState state cell cursorPositions deltaTime config
        cursorVelocity currentTime).lastPaintedTime = state.lastPaintedTime) := by
  simp only [advanceCellState]
  by_cases h : receivedContribution cell cursorPositions config cursorVelocity
  · simp [h]
  · simp [h, hne]

/-- C7 witness: with an empty contact-point list and a fresh timestamp, the
stored lastPaintedTime is kept and is not refreshed to the current frame. -/
theorem claim_C7_last_painted_refresh_witness :
    ((⟨0, 0⟩ : CellDensityState).lastPaintedTime ≠ (1 : ℝ)) ∧
    (((advanceCellState ⟨0, 0⟩ ⟨0, 0, 80, 24⟩ [] 1 createDefaultConfig 0
        1).lastPaintedTime = 1 ↔
      receivedContribution ⟨0, 0, 80, 24⟩ [] createDefaultConfig 0) ∧
    (¬ receivedContribution ⟨0, 0, 80, 24⟩ [] createDefaultConfig 0 →
      (advanceCellState ⟨0, 0⟩ ⟨0, 0, 80, 24⟩ [] 1 createDefaultConfig 0
        1).lastPaintedTime = (⟨0, 0⟩ : CellDensityState).lastPaintedTime)) :=
  ⟨by norm_num,
    claim_C7_last_painted_refresh ⟨0, 0⟩ ⟨0, 0, 80, 24⟩ [] 1 createDefaultConfig 0 1
      (by norm_num)⟩

/-- C9: the subdivision direction is vertical exactly when the width exceeds
the height and horizontal otherwise; one vertical split yields two
side-by-side half-width cells and one horizontal split two stacked
half-height cells; an 80 by 24 cell is first split vertically into two 40 by
24 cells. -/
theorem claim_C9_direction_and_split :
    (∀ width height : ℝ,
      (getSubdivisionDirection width height = SubdivisionDirection.vertical ↔
        height < width) ∧
      (getSubdivisionDirection width height = SubdivisionDirection.horizontal ↔
        ¬ height < width)) ∧
    (∀ cell : CellBounds,
      subdivideCellOnce cell SubdivisionDirection.vertical =
        (⟨cell.x, cell.y, cell.width / 2, cell.height⟩,
         ⟨cell.x + cell.width / 2, cell.y, cell.width / 2, cell.height⟩) ∧
      subdivideCellOnce cell SubdivisionDirection.horizontal =
        (⟨cell.x, cell.y, cell.width, cell.height / 2⟩,
         ⟨cell.x, cell.y + cell.height / 2, cell.width, cell.height / 2⟩)) ∧
    getSubdivisionDirection 80 24 = SubdivisionDirection.vertical ∧
    subdivideCell ⟨0, 0, 80, 24⟩ 1 0 = [⟨0, 0, 40, 24⟩, ⟨40, 0, 40, 24⟩] := by
  refine ⟨fun width height => ⟨?_, ?_⟩, fun cell => ⟨?_, ?_⟩, ?_, ?_⟩
  · simp only [getSubdivisionDirection, gt_iff_lt]
    split_ifs with h <;> simp [h]
  · simp only [getSubdivisionDirection, gt_iff_lt]
    split_ifs with h <;> simp [h]
  · simp [subdivideCellOnce]
  · simp [subdivideCellOnce]
  · simp only [getSubdivisionDirection]
    norm_num
  · rw [subdivideCell]
    norm_num [getSubdivisionDirection, subdivideCellOnce]
    rw [subdivideCell, subdivideCell]
    norm_num

/-- C8 counterexample: a degenerate cell of width and height 0 with target
level 1 is still subdivided into two cells, not returned unchanged as a
single-cell list. -/
theorem claim_C8_counterexample :
    subdivideCell ⟨0, 0, 0, 0⟩ 1 0 = [⟨0, 0, 0, 0⟩, ⟨0, 0, 0, 0⟩] ∧
    subdivideCell ⟨0, 0, 0, 0⟩ 1 0 ≠ [⟨0, 0, 0, 0⟩] := by
  have heval : subdivideCell ⟨0, 0, 0, 0⟩ 1 0 = [⟨0, 0, 0, 0⟩, ⟨0, 0, 0, 0⟩] := by
    rw [subdivideCell]
    norm_num [getSubdivisionDirection, subdivideCellOnce]
    rw [subdivideCell]
    norm_num
  exact ⟨heval, by rw [heval]; simp⟩

/-- C8 amended: subdivideCell has no terminal check for degenerate cells;
a cell with non-positive width or height is subdivided exactly like any
other, yielding two to the power of the target level cells, the recursion
being bounded by the level counter rather than by the dimensions. -/
theorem claim_C8_amended (cell : CellBounds)
    (hdeg : cell.width ≤ 0 ∨ cell.height ≤ 0) (L : ℕ) :
    (subdivideCell cell L 0).length = 2 ^ L :=
  subdivideCell_length L cell L 0 (by omega)

/-- C8 amended witness: the amended theorem at the degenerate zero cell with
target level 1. -/
theorem claim_C8_amended_witness :
    ((⟨0, 0, 0, 0⟩ : CellBounds).width ≤ 0 ∨
      (⟨0, 0, 0, 0⟩ : CellBounds).height ≤ 0) ∧
    (subdivideCell ⟨0, 0, 0, 0⟩ 1 0).length = 2 ^ 1 :=
  ⟨Or.inl (by norm_num), claim_C8_amended ⟨0, 0, 0, 0⟩ (Or.inl (by norm_num)) 1⟩

/-- C5: subdividing a cell with positive dimensions to target level L yields
exactly two to the power L rectangles whose closed union is exactly the
original rectangle and whose open interiors are pairwise disjoint. -/
theorem claim_C5_subdivision_partition (cell : CellBounds)
    (hw : 0 < cell.width) (hh : 0 < cell.height) (L : ℕ) :
    (subdivideCell cell L 0).length = 2 ^ L ∧
    (⋃ r ∈ subdivideCell cell L 0, cellSet r) = cellSet cell ∧
    (subdivideCell cell L 0).Pairwise
      (fun r1 r2 => cellInterior r1 ∩ cellInterior r2 = ∅) :=
  ⟨subdivideCell_length L cell L 0 (by omega),
    (subdivideCell_partition L cell L 0 (by omega) hw hh).1,
    (subdivideCell_partition L cell L 0 (by omega) hw hh).2⟩

/-- C5 witness: the theorem applied to the unit cell with target level 2. -/
theorem claim_C5_subdivision_partition_witness :
    0 < (⟨0, 0, 1, 1⟩ : CellBounds).width ∧
    0 < (⟨0, 0, 1, 1⟩ : CellBounds).height ∧
    ((subdivideCell ⟨0, 0, 1, 1⟩ 2 0).length = 2 ^ 2 ∧
      (⋃ r ∈ subdivideCell ⟨0, 0, 1, 1⟩ 2 0, cellSet r) = cellSet ⟨0, 0, 1, 1⟩ ∧
      (subdivideCell ⟨0, 0, 1, 1⟩ 2 0).Pairwise
        (fun r1 r2 => cellInterior r1 ∩ cellInterior r2 = ∅)) :=
  ⟨by norm_num, by norm_num,
    claim_C5_subdivision_partition ⟨0, 0, 1, 1⟩ (by norm_num) (by norm_num) 2⟩

/-- C10: subdividing a cell with positive dimensions to target level L emits
exactly two to the power L minus one dividing lines, every emitted level lies
between 1 and L, and each level k between 1 and L is carried by exactly two
to the power k minus one of the lines. -/
theorem claim_C10_subdivision_lines (cell : CellBounds)
    (hw : 0 < cell.width) (hh : 0 < cell.height) (L : ℕ) :
    (getSubdivisionLines cell L 0).length = 2 ^ L - 1 ∧
    (∀ l ∈ getSubdivisionLines cell L 0, 1 ≤ l.level ∧ l.level ≤ L) ∧
    (∀ k, 1 ≤ k → k ≤ L →
      (getSubdivisionLines cell L 0).countP (fun l => l.level == k) =
        2 ^ (k - 1)) := by
  refine ⟨getSubdivisionLines_length L cell L 0 (by omega), ?_, ?_⟩
  · intro l hl
    exact getSubdivisionLines_level_bounds L cell L 0 (by omega) l hl
  · intro k hk1 hk2
    have hcount := getSubdivisionLines_countP L cell L 0 k (by omega)
    simp only [Nat.zero_add] at hcount
    rw [hcount, if_pos ⟨hk1, hk2⟩]

/-- C10 witness: the theorem applied to the unit cell with target level 2. -/
theorem claim_C10_subdivision_lines_witness :
    0 < (⟨0, 0, 1, 1⟩ : CellBounds).width ∧
    0 < (⟨0, 0, 1, 1⟩ : CellBounds).height ∧
    ((getSubdivisionLines ⟨0, 0, 1, 1⟩ 2 0).length = 2 ^ 2 - 1 ∧
      (∀ l ∈ getSubdivisionLines ⟨0, 0, 1, 1⟩ 2 0, 1 ≤ l.level ∧ l.level ≤ 2) ∧
      (∀ k, 1 ≤ k → k ≤ 2 →
        (getSubdivisionLines ⟨0, 0, 1, 1⟩ 2 0).countP (fun l => l.level == k) =
          2 ^ (k - 1))) :=
  ⟨by norm_num, by norm_num,
    claim_C10_subdivision_lines ⟨0, 0, 1, 1⟩ (by norm_num) (by norm_num) 2⟩

/-- C6: for a positive step size, interpolatePoints returns only the end
point when the endpoints are closer than the step size; otherwise it returns
ceil(distance / stepSize) + 1 points, the point at index i being
p1 + (i / numSteps) times (p2 - p1), so the sequence starts at p1 and ends at
p2; in particular from (0,0) to (100,0) with step 20 it returns 6 points
starting at (0,0) and ending at (100,0). -/
theorem claim_C6_interpolation :
    (∀ (p1 p2 : Point) (s : ℝ), 0 < s →
      (calculateDistance p1 p2 < s → interpolatePoints p1 p2 s = [p2]) ∧
      (s ≤ calculateDistance p1 p2 →
        (interpolatePoints p1 p2 s).length =
          (⌈calculateDistance p1 p2 / s⌉ : ℤ).toNat + 1 ∧
        (∀ i : ℕ, i ≤ (⌈calculateDistance p1 p2 / s⌉ : ℤ).toNat →
          (interpolatePoints p1 p2 s)[i]? =
            some ⟨p1.x + ((i : ℝ) /
                (((⌈calculateDistance p1 p2 / s⌉ : ℤ).toNat : ℕ) : ℝ)) *
                  (p2.x - p1.x),
              p1.y + ((i : ℝ) /
                (((⌈calculateDistance p1 p2 / s⌉ : ℤ).toNat : ℕ) : ℝ)) *
                  (p2.y - p1.y)⟩) ∧
        (interpolatePoints p1 p2 s).head? = some p1 ∧
        (interpolatePoints p1 p2 s).getLast? = some p2)) ∧
    ((interpolatePoints ⟨0, 0⟩ ⟨100, 0⟩ 20).length = 6 ∧
      (interpolatePoints ⟨0, 0⟩ ⟨100, 0⟩ 20).head? = some ⟨0, 0⟩ ∧
      (interpolatePoints ⟨0, 0⟩ ⟨100, 0⟩ 20).getLast? = some ⟨100, 0⟩) := by
  have hgen : ∀ (p1 p2 : Point) (s : ℝ), 0 < s →
      (calculateDistance p1 p2 < s → interpolatePoints p1 p2 s = [p2]) ∧
      (s ≤ calculateDistance p1 p2 →
        (interpolatePoints p1 p2 s).length =
          (⌈calculateDistance p1 p2 / s⌉ : ℤ).toNat + 1 ∧
        (∀ i : ℕ, i ≤ (⌈calculateDistance p1 p2 / s⌉ : ℤ).toNat →
          (interpolatePoints p1 p2 s)[i]? =
            some ⟨p1.x + ((i : ℝ) /
                (((⌈calculateDistance p1 p2 / s⌉ : ℤ).toNat : ℕ) : ℝ)) *
                  (p2.x - p1.x),
              p1.y + ((i : ℝ) /
                (((⌈calculateDistance p1 p2 / s⌉ : ℤ).toNat : ℕ) : ℝ)) *
                  (p2.y - p1.y)⟩) ∧
        (interpolatePoints p1 p2 s).head? = some p1 ∧
        (interpolatePoints p1 p2 s).getLast? = some p2) := by
    intro p1 p2 s hs
    refine ⟨interpolatePoints_of_lt p1 p2 s, fun h => ?_⟩
    have hn := interpolate_numSteps_pos p1 p2 s hs h
    rw [interpolatePoints_of_le p1 p2 s h]
    refine ⟨by simp, fun i hi => ?_, ?_, ?_⟩
    · rw [List.getElem?_map, List.getElem?_range (by omega)]
      simp only [Option.map_some']
      congr 2 <;> ring
    · rw [List.range_succ_eq_map, List.map_cons, List.head?_cons]
      congr 1
      cases p1
      simp only [Point.mk.injEq, Nat.cast_zero]
      constructor <;> (rw [zero_div]; ring)
    · rw [List.range_succ, List.map_append, List.map_cons, List.map_nil,
        List.getLast?_concat]
      congr 1
      have hne : (((⌈calculateDistance p1 p2 / s⌉ : ℤ).toNat : ℕ) : ℝ) ≠ 0 := by
        have h0 : 0 < (⌈calculateDistance p1 p2 / s⌉ : ℤ).toNat := by omega
        exact_mod_cast h0.ne'
      cases p2
      simp only [Point.mk.injEq]
      constructor <;> (rw [div_self hne]; ring)
  refine ⟨hgen, ?_⟩
  have hdist : calculateDistance ⟨0, 0⟩ ⟨100, 0⟩ = 100 := by
    rw [calculateDistance]
    simp only
    rw [show ((0 : ℝ) - 100) * ((0 : ℝ) - 100) + ((0 : ℝ) - 0) * ((0 : ℝ) - 0) =
      100 ^ 2 by norm_num]
    rw [Real.sqrt_sq (by norm_num)]
  have hc := (hgen ⟨0, 0⟩ ⟨100, 0⟩ 20 (by norm_num)).2 (by rw [hdist]; norm_num)
  have hsteps : (⌈calculateDistance ⟨0, 0⟩ ⟨100, 0⟩ / 20⌉ : ℤ).toNat = 5 := by
    rw [hdist]
    norm_num
    rfl
  refine ⟨?_, hc.2.2.1, hc.2.2.2⟩
  rw [hc.1, hsteps]

/-- C6 witness: the general statement applied to the concrete pair of points
with step size 20. -/
theorem claim_C6_interpolation_witness :
    (0 : ℝ) < 20 ∧
    ((calculateDistance ⟨0, 0⟩ ⟨100, 0⟩ < 20 →
        interpolatePoints ⟨0, 0⟩ ⟨100, 0⟩ 20 = [⟨100, 0⟩]) ∧
      (20 ≤ calculateDistance ⟨0, 0⟩ ⟨100, 0⟩ →
        (interpolatePoints ⟨0, 0⟩ ⟨100, 0⟩ 20).length =
          (⌈calculateDistance ⟨0, 0⟩ ⟨100, 0⟩ / 20⌉ : ℤ).toNat + 1 ∧
        (∀ i : ℕ, i ≤ (⌈calculateDistance ⟨0, 0⟩ ⟨100, 0⟩ / 20⌉ : ℤ).toNat →
          (interpolatePoints ⟨0, 0⟩ ⟨100, 0⟩ 20)[i]? =
            some ⟨(⟨0, 0⟩ : Point).x + ((i : ℝ) /
                (((⌈calculateDistance ⟨0, 0⟩ ⟨100, 0⟩ / 20⌉ : ℤ).toNat : ℕ) : ℝ)) *
                  ((⟨100, 0⟩ : Point).x - (⟨0, 0⟩ : Point).x),
              (⟨0, 0⟩ : Point).y + ((i : ℝ) /
                (((⌈calculateDistance ⟨0, 0⟩ ⟨100, 0⟩ / 20⌉ : ℤ).toNat : ℕ) : ℝ)) *
                  ((⟨100, 0⟩ : Point).y - (⟨0, 0⟩ : Point).y)⟩) ∧
        (interpolatePoints ⟨0, 0⟩ ⟨100, 0⟩ 20).head? = some ⟨0, 0⟩ ∧
        (interpolatePoints ⟨0, 0⟩ ⟨100, 0⟩ 20).getLast? = some ⟨100, 0⟩)) :=
  ⟨by norm_num, claim_C6_interpolation.1 ⟨0, 0⟩ ⟨100, 0⟩ 20 (by norm_num)⟩

end

end Spreadsheet
